import Mathlib

/- Shallow embedding of the goframe photo-frame system: the server-side
content-addressed photo store (src/server/main.go), the client-side sync
engine (src/photo_sync.go) and the in-memory image working set
(src/main.go).  File contents are byte lists; the SHA-256 hex digest
(crypto/sha256 + hex.EncodeToString, an external library primitive) is a
parameter H : Bytes → String of every definition; demoHash below is a
concrete executable instance used by witnesses.  Directories are
association lists from filename to content; Go maps are association
lists with insert-replace semantics.  Timestamps (UpdatedAt / ModTime)
are external clock data never read by the verified logic and are not
modelled.  I/O failures are injected explicitly where the Go code
branches on an error. -/

set_option maxRecDepth 4096

/-- File contents as a list of bytes. -/
abbrev Bytes : Type := List Nat

/-- Concrete executable digest used to instantiate the hash parameter in
witnesses and counterexamples (stand-in for sha256 hex encoding). -/
def demoHash (b : Bytes) : String :=
  Nat.repr (b.foldl (fun a x => a * 31 + x + 1) 1)

/-- PhotoMetadata record (src/server/main.go and src/photo_sync.go): a
content hash and a display filename.  The UpdatedAt timestamp field is
external clock metadata never consulted by the logic and is omitted. -/
structure PhotoMetadata where
  hash : String
  filename : String
deriving DecidableEq, Repr

/-- A directory: filenames paired with file contents. -/
abbrev Dir : Type := List (String × Bytes)

/-- The in-memory index of the store: Go map from hash to record. -/
abbrev Index : Type := List (String × PhotoMetadata)

/-- Association-list lookup (Go map read / reading the file at a path). -/
def alookup {β : Type} : List (String × β) → String → Option β
  | [], _ => none
  | (k, v) :: r, key => if k = key then some v else alookup r key

/-- Association-list insert with replacement (Go map write / os.Create
truncating an existing file). -/
def ainsert {β : Type} : List (String × β) → String → β → List (String × β)
  | [], key, v => [(key, v)]
  | (k, w) :: r, key, v =>
      if k = key then (key, v) :: r else (k, w) :: ainsert r key v

/-- Association-list erase (Go map delete / os.Remove). -/
def aerase {β : Type} (l : List (String × β)) (key : String) :
    List (String × β) :=
  l.filter (fun e => decide (e.1 ≠ key))

/-- Suffix of a character list starting at its last dot, if any. -/
def extAux : List Char → Option (List Char)
  | [] => none
  | c :: cs =>
      match extAux cs with
      | some r => some r
      | none => if c = '.' then some (c :: cs) else none

/-- filepath.Ext: the filename suffix beginning at the final dot,
empty if there is no dot. -/
def extOf (s : String) : String :=
  match extAux s.toList with
  | some r => String.mk r
  | none => ""

/-- True when a filename carries the transient upload prefix. -/
def isTmpName (s : String) : Bool := decide (s.take 4 = "tmp-")

/- ContentStore: src/server/main.go -/

/-- Server-side store state: the base directory contents and the
in-memory photos index. -/
structure Store where
  dir : Dir
  index : Index
deriving DecidableEq, Repr

/-- PhotoStorage.loadExistingPhotos: walk the base directory and index
every file whose extension is .jpeg under its content hash. -/
def loadExistingPhotos (H : Bytes → String) (files : Dir) : Index :=
  files.foldl
    (fun idx f =>
      if extOf f.1 = ".jpeg" then
        ainsert idx (H f.2) ⟨H f.2, f.1⟩
      else idx)
    []

/-- PhotoStorage.List: snapshot of the index values. -/
def listStore (s : Store) : List PhotoMetadata := s.index.map (fun e => e.2)

/-- PhotoStorage.Get: path (filename within the base directory) of the
record for a hash, none if the hash is not indexed. -/
def getStore (s : Store) (h : String) : Option String :=
  (alookup s.index h).map (fun m => m.filename)

/-- Which I/O operations of PhotoStorage.Add fail, in the order the Go
code performs them: os.Create of the temp file, io.Copy into it,
os.Rename to the final name, os.Stat of the final name. -/
structure FailSpec where
  createFails : Bool
  copyFails : Bool
  renameFails : Bool
  statFails : Bool
deriving DecidableEq, Repr

/-- The all-success failure specification. -/
def noFail : FailSpec := ⟨false, false, false, false⟩

/-- Errors PhotoStorage.Add can return, one per failing operation. -/
inductive AddErr where
  | createErr
  | writeErr
  | renameErr
  | statErr
deriving DecidableEq, Repr

/-- PhotoStorage.Add with explicit failure injection.  The Go code:
creates tmp-<filename> (truncating any existing file of that name),
copies the stream into it while hashing, renames it onto the final
name, stats the final file, then writes the index entry.  On a copy or
rename failure the temp file is removed; on a stat failure the rename
has already happened, so the final file stays on disk while the call
errors with the index untouched. -/
def addFull (H : Bytes → String) (s : Store) (fn : String) (data : Bytes)
    (f : FailSpec) : Store × Except AddErr PhotoMetadata :=
  if f.createFails then (s, Except.error AddErr.createErr)
  else if f.copyFails then
    ({ s with dir := aerase s.dir ("tmp-" ++ fn) }, Except.error AddErr.writeErr)
  else if f.renameFails then
    ({ s with dir := aerase s.dir ("tmp-" ++ fn) }, Except.error AddErr.renameErr)
  else if f.statFails then
    ({ s with dir := ainsert (aerase s.dir ("tmp-" ++ fn)) fn data },
      Except.error AddErr.statErr)
  else
    ({ dir := ainsert (aerase s.dir ("tmp-" ++ fn)) fn data,
       index := ainsert s.index (H data) ⟨H data, fn⟩ },
      Except.ok ⟨H data, fn⟩)

/-- PhotoStorage.Add on its success path: the temp name is consumed by
create-then-rename, the final name holds the data, and the index maps
the digest to the new record. -/
def addOk (H : Bytes → String) (s : Store) (fn : String) (data : Bytes) :
    Store :=
  { dir := ainsert (aerase s.dir ("tmp-" ++ fn)) fn data,
    index := ainsert s.index (H data) ⟨H data, fn⟩ }

/-- A sequence of successful Add calls applied in order. -/
def applyAdds (H : Bytes → String) (s : Store)
    (ops : List (String × Bytes)) : Store :=
  ops.foldl (fun t p => addOk H t p.1 p.2) s

/-- Errors PhotoStorage.Delete can return. -/
inductive DelErr where
  | notFound
  | removeFailed
deriving DecidableEq, Repr

/-- os.Remove: fails when no file of that name exists, otherwise
removes it. -/
def removeFile (d : Dir) (fn : String) : Option Dir :=
  match alookup d fn with
  | some _ => some (aerase d fn)
  | none => none

/-- PhotoStorage.Delete: look the hash up in the index; absent means
os.ErrNotExist; present means remove the backing file, and only if
that succeeds delete the index entry. -/
def deleteStore (s : Store) (h : String) : Store × Option DelErr :=
  match alookup s.index h with
  | none => (s, some DelErr.notFound)
  | some m =>
      match removeFile s.dir m.filename with
      | none => (s, some DelErr.removeFailed)
      | some d => ({ dir := d, index := aerase s.index h }, none)

/- SyncEngine: src/photo_sync.go -/

/-- Backoff base value: 1 minute in nanoseconds, set by NewPhotoSync. -/
def baseBackoff : Nat := 60000000000

/-- Backoff ceiling: 1 hour in nanoseconds. -/
def maxBackoff : Nat := 3600000000000

/-- retryBackoff value assigned by NewPhotoSync. -/
def newPhotoSyncBackoff : Nat := 60000000000

/-- Backoff update on a connection failure: double, capped at 1 hour. -/
def backoffFail (b : Nat) : Nat :=
  if b * 2 > maxBackoff then maxBackoff else b * 2

/-- Outcome of the GET /photos/list call plus the JSON decode of its
body: connection failure, decode failure, or a decoded record list. -/
inductive FetchOutcome where
  | connFail
  | fetched (decoded : Option (List PhotoMetadata))
deriving DecidableEq, Repr

/-- PhotoSync.loadLocalHashes: the set (Go map keys, here a
deduplicated list) of hashes of the .jpeg files in the photo dir. -/
def loadLocalHashes (H : Bytes → String) (d : Dir) : List String :=
  ((d.filter (fun f => decide (extOf f.1 = ".jpeg"))).map
    (fun f => H f.2)).dedup

/-- Hashes advertised by the remote inventory. -/
def remoteHashes (remote : List PhotoMetadata) : List String :=
  remote.map (fun m => m.hash)

/-- Local hashes absent from the remote inventory: the hashes whose
backing files the delete loop of Sync targets. -/
def deletionCandidates (H : Bytes → String) (dirScan : Dir)
    (remote : List PhotoMetadata) : List String :=
  (loadLocalHashes H dirScan).filter
    (fun h => decide (¬ h ∈ remoteHashes remote))

/-- Remote records whose hash is absent locally: the records the
download loop of Sync fetches. -/
def downloadCandidates (H : Bytes → String) (dirScan : Dir)
    (remote : List PhotoMetadata) : List PhotoMetadata :=
  remote.filter (fun m => decide (¬ m.hash ∈ loadLocalHashes H dirScan))

/-- PhotoSync.deleteLocalPhoto: re-scan the directory, remove the first
file whose content hashes to the candidate, and return nil (success,
Bool true) even when no file matches. -/
def deleteLocalPhoto (H : Bytes → String) (d : Dir) (h : String) :
    Dir × Bool :=
  match d.find? (fun f => decide (H f.2 = h)) with
  | some f => (aerase d f.1, true)
  | none => (d, true)

/-- The delete loop of Sync: apply deleteLocalPhoto to each candidate in
turn, counting the calls that returned success. -/
def deletePhase (H : Bytes → String) : Dir → List String → Dir × Nat
  | d, [] => (d, 0)
  | d, h :: t =>
      let r := deleteLocalPhoto H d h
      let rest := deletePhase H r.1 t
      (rest.1, (if r.2 then 1 else 0) + rest.2)

/-- PhotoSync.downloadPhoto: fetch the content advertised for the hash
and write it to the photo dir under the remote filename. -/
def downloadPhoto (fetch : String → Bytes) (d : Dir) (m : PhotoMetadata) :
    Dir :=
  ainsert d m.filename (fetch m.hash)

/-- The download loop of Sync: download each candidate in turn,
counting successes. -/
def downloadPhase (fetch : String → Bytes) :
    Dir → List PhotoMetadata → Dir × Nat
  | d, [] => (d, 0)
  | d, m :: t =>
      let rest := downloadPhase fetch (downloadPhoto fetch d m) t
      (rest.1, 1 + rest.2)

/-- Observable result of one Sync cycle. -/
structure SyncResult where
  retryBackoff : Nat
  errored : Bool
  dir : Dir
  deleteCount : Nat
  downloadCount : Nat
  callbackFired : Bool
deriving DecidableEq, Repr

/-- PhotoSync.Sync, sequential semantics of one cycle.  b is the
retryBackoff on entry.  On connection failure the backoff doubles
(capped) and the cycle aborts; on a successful fetch the backoff is
reset to 1 minute before the body is decoded, so a decode failure
aborts with the backoff already reset.  Otherwise the delete loop runs
over the candidates computed from the directory as scanned by
loadLocalHashes (dirScan), mutating the directory as seen by the later
re-scans (dirDel; the two coincide on a quiescent filesystem), and the
download loop then runs.  The completion callback fires when any
deletion or download was counted as successful. -/
def syncModel (H : Bytes → String) (b : Nat) (outcome : FetchOutcome)
    (dirScan dirDel : Dir) (fetch : String → Bytes) : SyncResult :=
  match outcome with
  | FetchOutcome.connFail => ⟨backoffFail b, true, dirDel, 0, 0, false⟩
  | FetchOutcome.fetched none => ⟨baseBackoff, true, dirDel, 0, 0, false⟩
  | FetchOutcome.fetched (some remote) =>
      let dres := deletePhase H dirDel (deletionCandidates H dirScan remote)
      let wres := downloadPhase fetch dres.1 (downloadCandidates H dirScan remote)
      ⟨baseBackoff, false, wres.1, dres.2, wres.2,
        decide (0 < wres.2 ∨ 0 < dres.2)⟩

/- DirectoryReconciler: src/main.go -/

/-- Opaque stand-in for a decoded ebiten image. -/
abbrev Img : Type := Nat

/-- Game.AddImage (identical in both revisions of src/main.go): append
the image to the working set unconditionally, with no knowledge of the
source path and no duplicate check. -/
def addImage (images : List Img) (img : Img) : List Img :=
  images ++ [img]

/- Helper lemmas about the association-list primitives. -/

/-- Looking up the key just inserted yields the inserted value. -/
theorem alookup_ainsert_self {β : Type} (l : List (String × β)) (k : String)
    (v : β) : alookup (ainsert l k v) k = some v := by
  induction l with
  | nil => simp [ainsert, alookup]
  | cons e r ih =>
      obtain ⟨k0, v0⟩ := e
      by_cases h : k0 = k
      · simp [ainsert, h, alookup]
      · simp [ainsert, h, alookup, ih]

/-- Inserting at one key does not change lookups at another. -/
theorem alookup_ainsert_ne {β : Type} (l : List (String × β)) (k k' : String)
    (v : β) (h : k' ≠ k) : alookup (ainsert l k v) k' = alookup l k' := by
  have h' : ¬ k = k' := fun hx => h hx.symm
  induction l with
  | nil => simp [ainsert, alookup, h']
  | cons e r ih =>
      obtain ⟨k0, v0⟩ := e
      by_cases he : k0 = k
      · subst he
        simp [ainsert, alookup, h']
      · by_cases he' : k0 = k'
        · subst he'
          simp [ainsert, alookup, h, he]
        · simp [ainsert, alookup, he, he', ih]

/-- Looking up an erased key fails. -/
theorem alookup_aerase_self {β : Type} (l : List (String × β)) (k : String) :
    alookup (aerase l k) k = none := by
  induction l with
  | nil => simp [aerase, alookup]
  | cons e r ih =>
      obtain ⟨k0, v0⟩ := e
      by_cases h : k0 = k
      · simpa [aerase, h] using ih
      · simpa [aerase, alookup, h] using ih

/-- Erasing one key does not change lookups at another. -/
theorem alookup_aerase_ne {β : Type} (l : List (String × β)) (k k' : String)
    (h : k' ≠ k) : alookup (aerase l k) k' = alookup l k' := by
  induction l with
  | nil => simp [aerase, alookup]
  | cons e r ih =>
      obtain ⟨k0, v0⟩ := e
      by_cases he : k0 = k
      · have h2 : ¬ k = k' := fun hx => h hx.symm
        simpa [aerase, alookup, he, h2] using ih
      · by_cases he' : k0 = k'
        · simp [aerase, alookup, he', h]
        · simpa [aerase, alookup, he, he'] using ih

/-- A filename is never equal to its own tmp-prefixed sibling. -/
theorem ne_tmp_self (fn : String) : fn ≠ "tmp-" ++ fn := by
  intro h
  have hlen : fn.length = ("tmp-" ++ fn).length := by rw [← h]
  rw [String.length_append] at hlen
  have h4 : ("tmp-" : String).length = 4 := rfl
  omega

/- C5: backoff discipline. -/

/-- C5: the sync backoff starts at the NewPhotoSync base value, doubles
on each connection failure (exactly, whenever the doubled value is
within the cap), never exceeds the 1-hour cap, is reset to base by a
cycle whose inventory fetch succeeds, and three consecutive connection
failures starting from base produce delays of 2, 4 and 8 base units. -/
theorem c5_backoff (H : Bytes → String) (b : Nat) (dS dD : Dir)
    (fetch : String → Bytes) (remote : List PhotoMetadata) :
    newPhotoSyncBackoff = baseBackoff ∧
    (syncModel H b FetchOutcome.connFail dS dD fetch).retryBackoff
      = backoffFail b ∧
    (b * 2 ≤ maxBackoff →
      (syncModel H b FetchOutcome.connFail dS dD fetch).retryBackoff
        = b * 2) ∧
    (syncModel H b FetchOutcome.connFail dS dD fetch).retryBackoff
      ≤ maxBackoff ∧
    (syncModel H b (FetchOutcome.fetched (some remote)) dS dD
      fetch).retryBackoff = baseBackoff ∧
    (syncModel H baseBackoff FetchOutcome.connFail dS dD
      fetch).retryBackoff = 2 * baseBackoff ∧
    (syncModel H (2 * baseBackoff) FetchOutcome.connFail dS dD
      fetch).retryBackoff = 4 * baseBackoff ∧
    (syncModel H (4 * baseBackoff) FetchOutcome.connFail dS dD
      fetch).retryBackoff = 8 * baseBackoff := by
  refine ⟨rfl, rfl, ?_, ?_, rfl, ?_, ?_, ?_⟩
  · intro h
    simp only [syncModel, backoffFail]
    split <;> omega
  · simp only [syncModel, backoffFail]
    split <;> omega
  · simp only [syncModel, backoffFail, baseBackoff, maxBackoff]
    norm_num
  · simp only [syncModel, backoffFail, baseBackoff, maxBackoff]
    norm_num
  · simp only [syncModel, backoffFail, baseBackoff, maxBackoff]
    norm_num

/-- Witness for c5_backoff at a concrete input. -/
theorem c5_backoff_witness :
    baseBackoff * 2 ≤ maxBackoff ∧
    (syncModel demoHash baseBackoff FetchOutcome.connFail [] []
      (fun _ => [])).retryBackoff = baseBackoff * 2 := by
  refine ⟨by norm_num [baseBackoff, maxBackoff], ?_⟩
  exact (c5_backoff demoHash baseBackoff [] [] (fun _ => []) []).2.2.1
    (by norm_num [baseBackoff, maxBackoff])

/- C6: decode failure and backoff. -/

/-- C6 counterexample: with backoff at 2 base units before the cycle, a
cycle whose fetch succeeds but whose payload fails to decode aborts
with an error, yet leaves the backoff at the base value rather than at
its pre-cycle value: the claim that a decode failure leaves the backoff
unchanged is false. -/
theorem c6_cex :
    (syncModel demoHash (2 * baseBackoff) (FetchOutcome.fetched none) [] []
      (fun _ => [])).errored = true ∧
    (syncModel demoHash (2 * baseBackoff) (FetchOutcome.fetched none) [] []
      (fun _ => [])).retryBackoff ≠ 2 * baseBackoff := by
  refine ⟨rfl, ?_⟩
  simp only [syncModel]
  norm_num [baseBackoff]

/-- C6 amended: a cycle whose remote inventory payload fails to decode
aborts with an error and touches nothing else, but its backoff has
already been reset to the base value by the successful fetch that
preceded decoding, so after the cycle the backoff equals baseBackoff
regardless of its pre-cycle value. -/
theorem c6_decode (H : Bytes → String) (b : Nat) (dS dD : Dir)
    (fetch : String → Bytes) :
    syncModel H b (FetchOutcome.fetched none) dS dD fetch
      = ⟨baseBackoff, true, dD, 0, 0, false⟩ := rfl

/- C7: AddImage is append-only. -/

/-- C7 counterexample: adding the same image twice to the empty working
set yields two entries, so the second call is not a no-op and the
working set does not retain a single first-loaded entry: the claimed
path idempotence of the in-memory add is false. -/
theorem c7_cex :
    addImage (addImage [] 7) 7 ≠ addImage [] 7 ∧
    (addImage (addImage [] 7) 7).length = 2 := by
  constructor
  · decide
  · decide

/-- C7 amended: AddImage appends unconditionally; it tracks no path and
performs no duplicate check, so a repeated add of the same image grows
the working set by one entry each time and leaves the duplicate
entries in place. -/
theorem c7_append (l : List Img) (x : Img) :
    addImage l x = l ++ [x] ∧
    (addImage (addImage l x) x).length = l.length + 2 ∧
    (addImage (addImage l x) x).count x = l.count x + 2 ∧
    addImage l x ≠ l := by
  refine ⟨rfl, by simp [addImage], by simp [addImage], ?_⟩
  intro h
  have := congrArg List.length h
  simp [addImage] at this

/- C4: Delete semantics. -/

/-- C4: Delete fails with NotFound when the hash is absent from the
index; when the hash is present but the backing file is gone, it fails
with the removal error and leaves the store (index included)
unchanged; when both are present it removes the backing file and the
index entry together, after which a second Delete of the same hash
fails with NotFound. -/
theorem c4_delete (s : Store) (h : String) :
    (alookup s.index h = none →
      deleteStore s h = (s, some DelErr.notFound)) ∧
    (∀ m, alookup s.index h = some m → alookup s.dir m.filename = none →
      deleteStore s h = (s, some DelErr.removeFailed)) ∧
    (∀ m c, alookup s.index h = some m → alookup s.dir m.filename = some c →
      (deleteStore s h).2 = none ∧
      alookup (deleteStore s h).1.index h = none ∧
      alookup (deleteStore s h).1.dir m.filename = none ∧
      (deleteStore (deleteStore s h).1 h).2 = some DelErr.notFound) := by
  refine ⟨?_, ?_, ?_⟩
  · intro hnone
    simp [deleteStore, hnone]
  · intro m hm hd
    simp [deleteStore, hm, removeFile, hd]
  · intro m c hm hd
    have hstep : deleteStore s h
        = ({ dir := aerase s.dir m.filename, index := aerase s.index h },
           none) := by
      simp [deleteStore, hm, removeFile, hd]
    rw [hstep]
    refine ⟨rfl, alookup_aerase_self _ _, alookup_aerase_self _ _, ?_⟩
    simp [deleteStore, alookup_aerase_self]

/-- Witness for c4_delete: deleting an indexed, present photo succeeds
and a second delete of the same hash reports NotFound. -/
theorem c4_delete_witness :
    (deleteStore ⟨[("a", [1])], [("h1", ⟨"h1", "a"⟩)]⟩ "h1").2 = none ∧
    (deleteStore
      (deleteStore ⟨[("a", [1])], [("h1", ⟨"h1", "a"⟩)]⟩ "h1").1 "h1").2
      = some DelErr.notFound := by
  have t := (c4_delete ⟨[("a", [1])], [("h1", ⟨"h1", "a"⟩)]⟩ "h1").2.2
    ⟨"h1", "a"⟩ [1] (by decide) (by decide)
  exact ⟨t.1, t.2.2.2⟩

/- C8: error atomicity of Add. -/

/-- C8 counterexample: when the os.Stat call after the rename fails,
Add returns an error, yet the fully renamed file is visible under its
final name: the claim that no new file is visible under its final name
on every Add failure is false. -/
theorem c8_cex :
    (addFull demoHash ⟨[], []⟩ "a.jpeg" [1] ⟨false, false, false, true⟩).2
      = Except.error AddErr.statErr ∧
    alookup (addFull demoHash ⟨[], []⟩ "a.jpeg" [1]
      ⟨false, false, false, true⟩).1.dir "a.jpeg" = some [1] := by
  constructor
  · rfl
  · decide

/-- C8 amended: whenever Add returns an error the index is unchanged
and no temporary file for this upload remains; on the create, copy and
rename failure paths the final name is untouched; but when the final
stat fails after the successful rename, the fully written file remains
visible under its final name. -/
theorem c8_atomic (H : Bytes → String) (s : Store) (fn : String)
    (data : Bytes) (f : FailSpec) (e : AddErr)
    (htmp : alookup s.dir ("tmp-" ++ fn) = none)
    (he : (addFull H s fn data f).2 = Except.error e) :
    (addFull H s fn data f).1.index = s.index ∧
    alookup (addFull H s fn data f).1.dir ("tmp-" ++ fn) = none ∧
    (f.createFails = true ∨ f.copyFails = true ∨ f.renameFails = true →
      alookup (addFull H s fn data f).1.dir fn = alookup s.dir fn) ∧
    (f.createFails = false → f.copyFails = false → f.renameFails = false →
      f.statFails = true →
      alookup (addFull H s fn data f).1.dir fn = some data) := by
  have h1 : ("tmp-" ++ fn) ≠ fn := Ne.symm (ne_tmp_self fn)
  have h2 : alookup (ainsert (aerase s.dir ("tmp-" ++ fn)) fn data)
      ("tmp-" ++ fn) = none := by
    rw [alookup_ainsert_ne _ _ _ _ h1, alookup_aerase_self]
  have h3 : alookup (ainsert (aerase s.dir ("tmp-" ++ fn)) fn data) fn
      = some data := alookup_ainsert_self _ _ _
  have h4 : alookup (aerase s.dir ("tmp-" ++ fn)) ("tmp-" ++ fn) = none :=
    alookup_aerase_self _ _
  have h5 : alookup (aerase s.dir ("tmp-" ++ fn)) fn = alookup s.dir fn :=
    alookup_aerase_ne _ _ _ (ne_tmp_self fn)
  obtain ⟨fc, fp, fr, fs⟩ := f
  cases fc <;> cases fp <;> cases fr <;> cases fs <;>
    simp_all [addFull]

/-- Witness for c8_atomic: a copy failure reports a write error and
leaves the index unchanged. -/
theorem c8_atomic_witness :
    alookup ([("x.jpeg", [5])] : Dir) ("tmp-" ++ "a.jpeg") = none ∧
    (addFull demoHash ⟨[("x.jpeg", [5])], []⟩ "a.jpeg" [1]
      ⟨false, true, false, false⟩).2 = Except.error AddErr.writeErr ∧
    (addFull demoHash ⟨[("x.jpeg", [5])], []⟩ "a.jpeg" [1]
      ⟨false, true, false, false⟩).1.index = ([] : Index) := by
  refine ⟨by decide, by rfl, ?_⟩
  exact (c8_atomic demoHash ⟨[("x.jpeg", [5])], []⟩ "a.jpeg" [1]
    ⟨false, true, false, false⟩ AddErr.writeErr (by decide) (by rfl)).1

/- C9: the startup scan and temporary files. -/

/-- C9: a leftover temporary file tmp-a.jpeg ends with the .jpeg
extension, so the startup scan indexes it as a valid record.  This
evaluates the scan on a base directory holding only that leftover
temp file: the resulting index maps its content hash to a record whose
filename is tmp-prefixed, contradicting the required invariant that a
tmp-prefixed file is never treated as a valid record. -/
theorem c9_tmp_scan :
    alookup (loadExistingPhotos demoHash [("tmp-a.jpeg", [1])])
      (demoHash [1]) = some ⟨demoHash [1], "tmp-a.jpeg"⟩ ∧
    isTmpName "tmp-a.jpeg" = true ∧
    extOf "tmp-a.jpeg" = ".jpeg" := by
  refine ⟨?_, ?_, ?_⟩
  · decide
  · decide
  · decide

/- C3: byte-identical content under two filenames. -/

/-- Number of index entries stored under a key. -/
def countKey {β : Type} (l : List (String × β)) (k : String) : Nat :=
  l.countP (fun e => decide (e.1 = k))

/-- Inserting into a list without the key appends the binding. -/
theorem ainsert_of_countKey_zero {β : Type} (l : List (String × β))
    (k : String) (v : β) (h : countKey l k = 0) :
    ainsert l k v = l ++ [(k, v)] := by
  induction l with
  | nil => simp [ainsert]
  | cons e r ih =>
      obtain ⟨k0, v0⟩ := e
      simp only [countKey, List.countP_cons] at h
      by_cases he : k0 = k
      · simp [he] at h
      · have hr : countKey r k = 0 := by
          simp only [countKey]
          omega
        simp [ainsert, he, ih hr]

/-- Inserting at an absent key yields exactly one entry under it. -/
theorem countKey_ainsert_of_zero {β : Type} (l : List (String × β))
    (k : String) (v : β) (h : countKey l k = 0) :
    countKey (ainsert l k v) k = 1 := by
  rw [ainsert_of_countKey_zero l k v h]
  simp only [countKey, List.countP_append] at h ⊢
  simp [h, List.countP_cons]

/-- Inserting at a present key keeps the number of entries under it. -/
theorem countKey_ainsert_of_pos {β : Type} (l : List (String × β))
    (k : String) (v : β) (h : 0 < countKey l k) :
    countKey (ainsert l k v) k = countKey l k := by
  induction l with
  | nil => simp [countKey] at h
  | cons e r ih =>
      obtain ⟨k0, v0⟩ := e
      by_cases he : k0 = k
      · subst he
        simp [ainsert, countKey, List.countP_cons]
      · have hr : 0 < countKey r k := by
          simp only [countKey, List.countP_cons, he] at h ⊢
          simpa [he] using h
        simp only [ainsert, he, if_neg he]
        simp only [countKey, List.countP_cons] at ih ⊢
        simp [he, ih hr]

/-- C3 counterexample: uploading byte-identical content under the two
filenames a.jpeg and b.jpeg leaves a single record in the store, not
two: the index is keyed by content hash, so the second Add overwrites
the first record. -/
theorem c3_cex :
    (listStore (addOk demoHash (addOk demoHash ⟨[], []⟩ "a.jpeg" [1])
      "b.jpeg" [1])).length = 1 ∧
    ¬ (listStore (addOk demoHash (addOk demoHash ⟨[], []⟩ "a.jpeg" [1])
      "b.jpeg" [1])).length = 2 := by
  constructor
  · decide
  · decide

/-- C3 amended: uploading byte-identical content under two different
filenames produces a single index record carried under the shared
content digest — the second Add overwrites the first record, whose
filename is lost from the index while both backing files remain on
disk — and both Add calls return metadata carrying that same digest. -/
theorem c3_overwrite (H : Bytes → String) (s : Store) (fn1 fn2 : String)
    (data : Bytes) (h12 : fn1 ≠ fn2) (htmp : fn1 ≠ "tmp-" ++ fn2)
    (hk : countKey s.index (H data) = 0) :
    (addFull H s fn1 data noFail).2 = Except.ok ⟨H data, fn1⟩ ∧
    (addFull H (addOk H s fn1 data) fn2 data noFail).2
      = Except.ok ⟨H data, fn2⟩ ∧
    (addFull H s fn1 data noFail).1 = addOk H s fn1 data ∧
    countKey (addOk H (addOk H s fn1 data) fn2 data).index (H data) = 1 ∧
    alookup (addOk H (addOk H s fn1 data) fn2 data).index (H data)
      = some ⟨H data, fn2⟩ ∧
    alookup (addOk H (addOk H s fn1 data) fn2 data).dir fn1 = some data ∧
    alookup (addOk H (addOk H s fn1 data) fn2 data).dir fn2 = some data := by
  have hc1 : countKey (addOk H s fn1 data).index (H data) = 1 :=
    countKey_ainsert_of_zero _ _ _ hk
  refine ⟨rfl, rfl, rfl, ?_, alookup_ainsert_self _ _ _, ?_,
    alookup_ainsert_self _ _ _⟩
  · have hpos : 0 < countKey (addOk H s fn1 data).index (H data) := by omega
    have hkeep := countKey_ainsert_of_pos (addOk H s fn1 data).index
      (H data) (⟨H data, fn2⟩ : PhotoMetadata) hpos
    exact hkeep.trans hc1
  · show alookup (ainsert (aerase (addOk H s fn1 data).dir ("tmp-" ++ fn2))
      fn2 data) fn1 = some data
    rw [alookup_ainsert_ne _ _ _ _ h12, alookup_aerase_ne _ _ _ htmp]
    exact alookup_ainsert_self _ _ _

/-- Witness for c3_overwrite at concrete filenames and content. -/
theorem c3_overwrite_witness :
    countKey (addOk demoHash (addOk demoHash ⟨[], []⟩ "a.jpeg" [1])
      "b.jpeg" [1]).index (demoHash [1]) = 1 ∧
    alookup (addOk demoHash (addOk demoHash ⟨[], []⟩ "a.jpeg" [1])
      "b.jpeg" [1]).index (demoHash [1])
      = some ⟨demoHash [1], "b.jpeg"⟩ := by
  have t := c3_overwrite demoHash ⟨[], []⟩ "a.jpeg" "b.jpeg" [1]
    (by decide) (by decide) (by decide)
  exact ⟨t.2.2.2.1, t.2.2.2.2.1⟩

/- C1: Add/Get round-trip. -/

/-- Filenames under which the content of interest may come to back its
index record during a sequence of Adds: the original filename plus the
filename of every intervening Add whose content carries the same
digest. -/
def roundTripNames (H : Bytes → String) (fn : String) (data : Bytes)
    (ops : List (String × Bytes)) : List String :=
  fn :: (ops.filter (fun p => decide (H p.2 = H data))).map Prod.fst

/-- Round-trip invariant for the digest key: the index maps key to a
record whose filename belongs to N and whose backing file content
re-hashes to key. -/
def storeRoundTrip (H : Bytes → String) (key : String) (N : List String)
    (s : Store) : Prop :=
  ∃ name c, alookup s.index key = some ⟨key, name⟩ ∧ name ∈ N ∧
    alookup s.dir name = some c ∧ H c = key

/-- One successful Add preserves the round-trip invariant, provided its
filename lies in N exactly when its content carries the key digest and
its temporary path collides with no name in N. -/
theorem storeRoundTrip_addOk (H : Bytes → String) (key : String)
    (N : List String) (s : Store) (g : String) (d : Bytes)
    (hmem : H d = key → g ∈ N) (hkey : g ∈ N → H d = key)
    (htmp : ("tmp-" ++ g) ∉ N) (h : storeRoundTrip H key N s) :
    storeRoundTrip H key N (addOk H s g d) := by
  obtain ⟨name, c, hidx, hN, hdir, hc⟩ := h
  by_cases hd : H d = key
  · subst hd
    exact ⟨g, d, alookup_ainsert_self _ _ _, hmem rfl,
      alookup_ainsert_self _ _ _, rfl⟩
  · have hkne : key ≠ H d := fun hx => hd hx.symm
    have hng : name ≠ g := by
      intro hx
      exact hd (hkey (hx ▸ hN))
    have hnt : name ≠ "tmp-" ++ g := by
      intro hx
      exact htmp (hx ▸ hN)
    refine ⟨name, c, ?_, hN, ?_, hc⟩
    · show alookup (ainsert s.index (H d) ⟨H d, g⟩) key = some ⟨key, name⟩
      rw [alookup_ainsert_ne _ _ _ _ hkne]
      exact hidx
    · show alookup (ainsert (aerase s.dir ("tmp-" ++ g)) g d) name = some c
      rw [alookup_ainsert_ne _ _ _ _ hng, alookup_aerase_ne _ _ _ hnt]
      exact hdir

/-- A sequence of Adds, each satisfying the side conditions of
storeRoundTrip_addOk, preserves the round-trip invariant. -/
theorem storeRoundTrip_fold (H : Bytes → String) (key : String)
    (N : List String) :
    ∀ (ops : List (String × Bytes)) (s : Store),
      (∀ p ∈ ops, (H p.2 = key → p.1 ∈ N) ∧ (p.1 ∈ N → H p.2 = key) ∧
        ("tmp-" ++ p.1) ∉ N) →
      storeRoundTrip H key N s →
      storeRoundTrip H key N (applyAdds H s ops) := by
  intro ops
  induction ops with
  | nil =>
      intro s _ h
      simpa [applyAdds] using h
  | cons p t ih =>
      intro s hall h
      have hp := hall p (by simp)
      have ht : ∀ q ∈ t, (H q.2 = key → q.1 ∈ N) ∧ (q.1 ∈ N → H q.2 = key) ∧
          ("tmp-" ++ q.1) ∉ N := fun q hq => hall q (by simp [hq])
      have h1 := storeRoundTrip_addOk H key N s p.1 p.2 hp.1 hp.2.1 hp.2.2 h
      simpa [applyAdds] using ih (addOk H s p.1 p.2) ht h1

/-- C1 counterexample: after Add("a.jpeg", [1]), the intervening Adds
("b.jpeg", [1]) and ("b.jpeg", [2]) never reuse the filename a.jpeg
with different content — the claim's proviso holds, as the first two
conjuncts record — yet Get on the digest of [1] returns the path
b.jpeg whose file content is [2], which re-hashes to a different
digest: the round-trip claim as stated is false, because a same-content
Add re-points the record at its own filename, which a later Add may
then overwrite with different content. -/
theorem c1_cex :
    (("b.jpeg" : String) = "a.jpeg" → ([1] : Bytes) = [1]) ∧
    (("b.jpeg" : String) = "a.jpeg" → ([2] : Bytes) = [1]) ∧
    getStore (applyAdds demoHash (addOk demoHash ⟨[], []⟩ "a.jpeg" [1])
      [("b.jpeg", [1]), ("b.jpeg", [2])]) (demoHash [1]) = some "b.jpeg" ∧
    alookup (applyAdds demoHash (addOk demoHash ⟨[], []⟩ "a.jpeg" [1])
      [("b.jpeg", [1]), ("b.jpeg", [2])]).dir "b.jpeg" = some [2] ∧
    demoHash [2] ≠ demoHash [1] := by
  refine ⟨by decide, by decide, by decide, by decide, by decide⟩

/-- C1 amended: after a successful Add of (fn, data), Get on the
record's digest returns a path whose file content re-hashes to that
digest, provided every intervening Add that reuses fn — or the
filename of any intervening Add whose content carries the same
digest — carries content with that same digest, and no intervening
Add's temporary path tmp-<filename> collides with any of those
filenames. -/
theorem c1_roundtrip (H : Bytes → String) (s : Store) (fn : String)
    (data : Bytes) (ops : List (String × Bytes))
    (hSame : ∀ p ∈ ops, p.1 ∈ roundTripNames H fn data ops →
      H p.2 = H data)
    (hTmp : ∀ p ∈ ops, ("tmp-" ++ p.1) ∉ roundTripNames H fn data ops) :
    ∃ name c,
      getStore (applyAdds H (addOk H s fn data) ops) (H data) = some name ∧
      alookup (applyAdds H (addOk H s fn data) ops).dir name = some c ∧
      H c = H data := by
  have hbase : storeRoundTrip H (H data) (roundTripNames H fn data ops)
      (addOk H s fn data) :=
    ⟨fn, data, alookup_ainsert_self _ _ _, by simp [roundTripNames],
      alookup_ainsert_self _ _ _, rfl⟩
  have hall : ∀ p ∈ ops,
      (H p.2 = H data → p.1 ∈ roundTripNames H fn data ops) ∧
      (p.1 ∈ roundTripNames H fn data ops → H p.2 = H data) ∧
      ("tmp-" ++ p.1) ∉ roundTripNames H fn data ops := by
    intro p hp
    refine ⟨?_, hSame p hp, hTmp p hp⟩
    intro hpd
    exact List.mem_cons_of_mem _
      (List.mem_map_of_mem Prod.fst (List.mem_filter.mpr ⟨hp, by simp [hpd]⟩))
  obtain ⟨name, c, hidx, hN, hdir, hc⟩ :=
    storeRoundTrip_fold H (H data) (roundTripNames H fn data ops) ops
      (addOk H s fn data) hall hbase
  exact ⟨name, c, by simp [getStore, hidx], hdir, hc⟩

/-- Witness for c1_roundtrip: one intervening same-content Add under a
fresh filename keeps the round trip intact. -/
theorem c1_roundtrip_witness :
    ∃ name c,
      getStore (applyAdds demoHash (addOk demoHash ⟨[], []⟩ "a.jpeg" [1])
        [("b.jpeg", [1])]) (demoHash [1]) = some name ∧
      alookup (applyAdds demoHash (addOk demoHash ⟨[], []⟩ "a.jpeg" [1])
        [("b.jpeg", [1])]).dir name = some c ∧
      demoHash c = demoHash [1] :=
  c1_roundtrip demoHash ⟨[], []⟩ "a.jpeg" [1] [("b.jpeg", [1])]
    (by decide) (by decide)

/- Helper lemmas for the sync reconciliation proofs. -/

/-- In a directory with no duplicate filenames, entries agree when
their filenames do. -/
theorem eq_of_mem_of_fst_eq {β : Type} :
    ∀ (l : List (String × β)), (l.map Prod.fst).Nodup →
      ∀ a ∈ l, ∀ b ∈ l, a.1 = b.1 → a = b := by
  intro l
  induction l with
  | nil => intro _ a ha; simp at ha
  | cons e r ih =>
      intro hk a ha b hb hab
      simp only [List.map_cons, List.nodup_cons] at hk
      rcases List.mem_cons.mp ha with ha1 | ha2 <;>
        rcases List.mem_cons.mp hb with hb1 | hb2
      · rw [ha1, hb1]
      · exfalso
        apply hk.1
        rw [ha1] at hab
        exact hab ▸ List.mem_map_of_mem Prod.fst hb2
      · exfalso
        apply hk.1
        rw [hb1] at hab
        exact hab ▸ List.mem_map_of_mem Prod.fst ha2
      · exact ih hk.2 a ha2 b hb2 hab

/-- Under unique filenames and hash-injective contents, removing the
first file whose content hashes to h removes exactly the files whose
content hashes to h. -/
theorem deleteLocalPhoto_eq (H : Bytes → String) (d : Dir) (h : String)
    (hk : (d.map Prod.fst).Nodup)
    (hinj : ∀ a ∈ d, ∀ b ∈ d, H a.2 = H b.2 → a = b) :
    deleteLocalPhoto H d h
      = (d.filter (fun f => decide (¬ H f.2 = h)), true) := by
  unfold deleteLocalPhoto
  cases hfind : d.find? (fun f => decide (H f.2 = h)) with
  | none =>
      have hall := List.find?_eq_none.mp hfind
      have : d.filter (fun f => decide (¬ H f.2 = h)) = d := by
        apply List.filter_eq_self.mpr
        intro a ha
        have := hall a ha
        simpa using this
      rw [this]
  | some f0 =>
      have hf0 : H f0.2 = h := by
        have := List.find?_some hfind
        simpa using this
      have hf0m : f0 ∈ d := List.mem_of_find?_eq_some hfind
      have hfilter : aerase d f0.1
          = d.filter (fun f => decide (¬ H f.2 = h)) := by
        apply List.filter_congr
        intro g hg
        simp only [decide_eq_decide]
        constructor
        · intro hne hgh
          exact hne (congrArg Prod.fst (hinj g hg f0 hf0m (hgh.trans hf0.symm)))
        · intro hgh hfst
          exact hgh ((congrArg (fun x => H x.2)
            (eq_of_mem_of_fst_eq d hk g hg f0 hf0m hfst)).trans hf0)
      show (aerase d f0.1, true) = _
      rw [hfilter]

/-- Unique filenames survive filtering. -/
theorem nodup_fst_filter {β : Type} (l : List (String × β))
    (p : String × β → Bool) (hk : (l.map Prod.fst).Nodup) :
    ((l.filter p).map Prod.fst).Nodup :=
  ((List.filter_sublist l).map Prod.fst).nodup hk

/-- Under unique filenames and hash-injective contents, the delete loop
removes exactly the files whose content hashes to some candidate, and
counts every candidate as a success. -/
theorem deletePhase_eq (H : Bytes → String) :
    ∀ (cs : List String) (d : Dir), (d.map Prod.fst).Nodup →
      (∀ a ∈ d, ∀ b ∈ d, H a.2 = H b.2 → a = b) →
      deletePhase H d cs
        = (d.filter (fun f => decide (¬ H f.2 ∈ cs)), cs.length) := by
  intro cs
  induction cs with
  | nil =>
      intro d hk hinj
      simp [deletePhase]
  | cons h t ih =>
      intro d hk hinj
      have hstep := deleteLocalPhoto_eq H d h hk hinj
      have hk1 : ((d.filter (fun f => decide (¬ H f.2 = h))).map
          Prod.fst).Nodup := nodup_fst_filter d _ hk
      have hinj1 : ∀ a ∈ d.filter (fun f => decide (¬ H f.2 = h)),
          ∀ b ∈ d.filter (fun f => decide (¬ H f.2 = h)),
          H a.2 = H b.2 → a = b := by
        intro a ha b hb
        exact hinj a (List.mem_of_mem_filter ha) b (List.mem_of_mem_filter hb)
      have hrec := ih (d.filter (fun f => decide (¬ H f.2 = h))) hk1 hinj1
      have hff : (d.filter (fun f => decide (¬ H f.2 = h))).filter
            (fun f => decide (¬ H f.2 ∈ t))
          = d.filter (fun f => decide (¬ H f.2 ∈ h :: t)) := by
        rw [List.filter_filter]
        apply List.filter_congr
        intro a _
        by_cases h1 : H a.2 = h <;> by_cases h2 : H a.2 ∈ t <;>
          simp [h1, h2]
      simp only [deletePhase, hstep, hrec, hff]
      simp [Nat.add_comm]

/-- The download loop over an appended list runs the two halves in
order. -/
theorem downloadPhase_append (fetch : String → Bytes)
    (l1 l2 : List PhotoMetadata) :
    ∀ d : Dir, (downloadPhase fetch d (l1 ++ l2)).1
      = (downloadPhase fetch (downloadPhase fetch d l1).1 l2).1 := by
  induction l1 with
  | nil => intro d; rfl
  | cons m t ih => intro d; simpa [downloadPhase] using ih _

/-- A filename whose downloads all write the value it already holds is
unchanged by the download loop. -/
theorem downloadPhase_alookup_agree (fetch : String → Bytes) :
    ∀ (ms : List PhotoMetadata) (d : Dir) (fn : String) (v : Bytes),
      alookup d fn = some v →
      (∀ m ∈ ms, m.filename = fn → fetch m.hash = v) →
      alookup (downloadPhase fetch d ms).1 fn = some v := by
  intro ms
  induction ms with
  | nil => intro d fn v hv _; exact hv
  | cons m t ih =>
      intro d fn v hv hall
      by_cases hfn : m.filename = fn
      · have hv1 : alookup (downloadPhoto fetch d m) fn
            = some v := by
          rw [downloadPhoto, hfn, alookup_ainsert_self,
            hall m (by simp) hfn]
        exact ih _ fn v hv1 (fun q hq => hall q (by simp [hq]))
      · have hv1 : alookup (downloadPhoto fetch d m) fn = some v := by
          rw [downloadPhoto,
            alookup_ainsert_ne _ _ _ _ (fun hx => hfn hx.symm)]
          exact hv
        exact ih _ fn v hv1 (fun q hq => hall q (by simp [hq]))

/- C2: the reconciliation performed by one successful Sync cycle. -/

/-- C2: in a cycle that fetches and decodes the remote inventory and
reads a quiescent local directory (with unique filenames and
hash-injective contents), the directory after the cycle is the delete
loop's result with the download loop applied after it (deletions fully
applied before any download); every local hash absent remotely is a
deletion candidate whose backing files are all gone after the delete
loop and which no download candidate carries; every remote record
whose hash is absent locally is a download candidate, and (when
download filenames determine their records) ends up on disk under its
advertised filename with its fetched content; and hashes present on
both sides are neither deletion nor download candidates, their backing
files surviving the delete loop. -/
theorem c2_reconcile (H : Bytes → String) (b : Nat)
    (remote : List PhotoMetadata) (d : Dir) (fetch : String → Bytes)
    (hk : (d.map Prod.fst).Nodup)
    (hinj : ∀ a ∈ d, ∀ a' ∈ d, H a.2 = H a'.2 → a = a') :
    (syncModel H b (FetchOutcome.fetched (some remote)) d d fetch).dir
      = (downloadPhase fetch
          (deletePhase H d (deletionCandidates H d remote)).1
          (downloadCandidates H d remote)).1 ∧
    (∀ h ∈ loadLocalHashes H d, ¬ h ∈ remoteHashes remote →
      h ∈ deletionCandidates H d remote ∧
      (∀ f ∈ (deletePhase H d (deletionCandidates H d remote)).1,
        H f.2 ≠ h) ∧
      (∀ m ∈ downloadCandidates H d remote, m.hash ≠ h)) ∧
    (∀ m ∈ remote, ¬ m.hash ∈ loadLocalHashes H d →
      m ∈ downloadCandidates H d remote) ∧
    ((∀ m ∈ downloadCandidates H d remote,
        ∀ m' ∈ downloadCandidates H d remote,
        m.filename = m'.filename → m = m') →
      ∀ m ∈ downloadCandidates H d remote,
        alookup (syncModel H b (FetchOutcome.fetched (some remote)) d d
          fetch).dir m.filename = some (fetch m.hash)) ∧
    (∀ h ∈ loadLocalHashes H d, h ∈ remoteHashes remote →
      ¬ h ∈ deletionCandidates H d remote ∧
      (∀ m ∈ downloadCandidates H d remote, m.hash ≠ h) ∧
      (∀ f ∈ d, H f.2 = h →
        f ∈ (deletePhase H d (deletionCandidates H d remote)).1)) := by
  have hphase := deletePhase_eq H (deletionCandidates H d remote) d hk hinj
  refine ⟨rfl, ?_, ?_, ?_, ?_⟩
  · intro h hlh hrem
    have hcand : h ∈ deletionCandidates H d remote := by
      simp [deletionCandidates, List.mem_filter, hlh, hrem]
    refine ⟨hcand, ?_, ?_⟩
    · intro f hf hfh
      rw [hphase] at hf
      have := (List.mem_filter.mp hf).2
      simp only [decide_eq_true_eq] at this
      exact this (hfh ▸ hcand)
    · intro m hm hmh
      have := (List.mem_filter.mp hm).2
      simp only [decide_eq_true_eq] at this
      exact this (hmh ▸ hlh)
  · intro m hm hml
    simp [downloadCandidates, List.mem_filter, hm, hml]
  · intro hdist m hm
    obtain ⟨l1, l2, hsplit⟩ := List.append_of_mem hm
    have hdir : (syncModel H b (FetchOutcome.fetched (some remote)) d d
        fetch).dir
        = (downloadPhase fetch
            (deletePhase H d (deletionCandidates H d remote)).1
            (downloadCandidates H d remote)).1 := rfl
    rw [hdir, hsplit, downloadPhase_append]
    have hstep : alookup
        (downloadPhoto fetch
          (downloadPhase fetch
            (deletePhase H d (deletionCandidates H d remote)).1 l1).1 m)
        m.filename = some (fetch m.hash) := by
      rw [downloadPhoto, alookup_ainsert_self]
    have htail : ∀ q ∈ l2, q.filename = m.filename →
        fetch q.hash = fetch m.hash := by
      intro q hq hqf
      have hq' : q ∈ downloadCandidates H d remote := by
        rw [hsplit]
        exact List.mem_append.mpr (Or.inr (List.mem_cons_of_mem _ hq))
      rw [hdist q hq' m hm hqf]
    have := downloadPhase_alookup_agree fetch l2
      (downloadPhoto fetch
        (downloadPhase fetch
          (deletePhase H d (deletionCandidates H d remote)).1 l1).1 m)
      m.filename (fetch m.hash) hstep htail
    simpa [downloadPhase, downloadPhoto] using this
  · intro h hlh hrem
    have hnc : ¬ h ∈ deletionCandidates H d remote := by
      intro hx
      have := (List.mem_filter.mp hx).2
      simp only [decide_eq_true_eq] at this
      exact this hrem
    refine ⟨hnc, ?_, ?_⟩
    · intro m hm hmh
      have := (List.mem_filter.mp hm).2
      simp only [decide_eq_true_eq] at this
      exact this (hmh ▸ hlh)
    · intro f hf hfh
      rw [hphase]
      exact List.mem_filter.mpr ⟨hf, by simp [hfh, hnc]⟩

/-- Witness for c2_reconcile: the spec's first scenario — local files
a.jpeg and b.jpeg, remote inventory holding only b.jpeg's hash — ends
with a.jpeg's content gone from the delete loop's result and with
nothing to download. -/
theorem c2_reconcile_witness :
    ¬ (("a.jpeg", ([1] : Bytes)) ∈ (deletePhase demoHash
      [("a.jpeg", [1]), ("b.jpeg", [2])]
      (deletionCandidates demoHash [("a.jpeg", [1]), ("b.jpeg", [2])]
        [⟨demoHash [2], "b.jpeg"⟩])).1) ∧
    downloadCandidates demoHash [("a.jpeg", [1]), ("b.jpeg", [2])]
      [⟨demoHash [2], "b.jpeg"⟩] = [] := by
  constructor
  · intro hmem
    exact ((c2_reconcile demoHash baseBackoff [⟨demoHash [2], "b.jpeg"⟩]
      [("a.jpeg", [1]), ("b.jpeg", [2])] (fun _ => [])
      (by decide) (by decide)).2.1 (demoHash [1]) (by decide)
      (by decide)).2.1 ("a.jpeg", [1]) hmem rfl
  · decide

/- C10: deletion candidates that match no file. -/

/-- When no file of the directory hashes to any listed candidate, the
delete loop leaves the directory unchanged and still counts every
candidate as a success. -/
theorem deletePhase_no_match (H : Bytes → String) :
    ∀ (cs : List String) (d : Dir),
      (∀ f ∈ d, ∀ h ∈ cs, H f.2 ≠ h) →
      deletePhase H d cs = (d, cs.length) := by
  intro cs
  induction cs with
  | nil => intro d _; rfl
  | cons h t ih =>
      intro d hno
      have hone : deleteLocalPhoto H d h = (d, true) := by
        unfold deleteLocalPhoto
        have : d.find? (fun f => decide (H f.2 = h)) = none := by
          apply List.find?_eq_none.mpr
          intro f hf
          simp [hno f hf h (by simp)]
        rw [this]
      have hrest := ih d (fun f hf h' hh' => hno f hf h' (by simp [hh']))
      simp [deletePhase, hone, hrest, Nat.add_comm]

/-- C10: deleteLocalPhoto returns success (nil error) when no file of
the directory hashes to the candidate, leaving the directory
untouched; consequently, when the directory as seen by the delete loop
no longer holds any file matching any candidate computed from the
earlier scan, every candidate is counted as a successful deletion, and
a nonempty candidate set alone makes the cycle fire the completion
callback even though no file was removed. -/
theorem c10_missing_candidate (H : Bytes → String) (b : Nat)
    (remote : List PhotoMetadata) (dirScan dirDel : Dir)
    (fetch : String → Bytes) :
    (∀ (d : Dir) (h : String), (∀ f ∈ d, H f.2 ≠ h) →
      deleteLocalPhoto H d h = (d, true)) ∧
    ((∀ f ∈ dirDel, ∀ h ∈ deletionCandidates H dirScan remote, H f.2 ≠ h) →
      deletePhase H dirDel (deletionCandidates H dirScan remote)
        = (dirDel, (deletionCandidates H dirScan remote).length)) ∧
    ((∀ f ∈ dirDel, ∀ h ∈ deletionCandidates H dirScan remote, H f.2 ≠ h) →
      deletionCandidates H dirScan remote ≠ [] →
      0 < (syncModel H b (FetchOutcome.fetched (some remote)) dirScan dirDel
        fetch).deleteCount ∧
      (syncModel H b (FetchOutcome.fetched (some remote)) dirScan dirDel
        fetch).callbackFired = true) := by
  have hitem : ∀ (d : Dir) (h : String), (∀ f ∈ d, H f.2 ≠ h) →
      deleteLocalPhoto H d h = (d, true) := by
    intro d h hno
    unfold deleteLocalPhoto
    have : d.find? (fun f => decide (H f.2 = h)) = none := by
      apply List.find?_eq_none.mpr
      intro f hf
      simp [hno f hf]
    rw [this]
  refine ⟨hitem, fun hno => deletePhase_no_match H _ dirDel hno, ?_⟩
  intro hno hne
  have hphase := deletePhase_no_match H
    (deletionCandidates H dirScan remote) dirDel hno
  have hcount : (syncModel H b (FetchOutcome.fetched (some remote)) dirScan
      dirDel fetch).deleteCount
      = (deletionCandidates H dirScan remote).length := by
    show (deletePhase H dirDel (deletionCandidates H dirScan remote)).2
      = (deletionCandidates H dirScan remote).length
    rw [hphase]
  have hpos : 0 < (deletionCandidates H dirScan remote).length :=
    List.length_pos.mpr hne
  refine ⟨by rw [hcount]; exact hpos, ?_⟩
  show decide (0 < (downloadPhase fetch
      (deletePhase H dirDel (deletionCandidates H dirScan remote)).1
      (downloadCandidates H dirScan remote)).2 ∨
    0 < (deletePhase H dirDel (deletionCandidates H dirScan remote)).2)
    = true
  apply decide_eq_true
  right
  rw [hphase]
  exact hpos

/-- Witness for c10_missing_candidate: the scan saw a.jpeg, the remote
inventory is empty, and the file has vanished by the time the delete
loop re-scans: the cycle counts one successful deletion and fires the
completion callback although nothing was removed. -/
theorem c10_missing_candidate_witness :
    0 < (syncModel demoHash baseBackoff (FetchOutcome.fetched (some []))
      [("a.jpeg", [1])] [] (fun _ => [])).deleteCount ∧
    (syncModel demoHash baseBackoff (FetchOutcome.fetched (some []))
      [("a.jpeg", [1])] [] (fun _ => [])).callbackFired = true :=
  (c10_missing_candidate demoHash baseBackoff [] [("a.jpeg", [1])] []
    (fun _ => [])).2.2 (by decide) (by decide)
